import Mathlib

/-!
Shallow embedding of `lazysequence.py` (class `LazySequence` and helpers).

Python is unityped; we model all Python values handled by a given sequence with a
single type `α`.  Python object identity, where a claim depends on it, is modelled
explicitly: base collections live in a `Store` (a map from object references to
list values) and a `LazySequence` instance holds a reference `base_ref` to its
base collection, exactly as the Python object holds `self._base_seq` by reference.

The mutable per-instance weak cache `_weakref_cache` is modelled by explicit state
passing: integer `__getitem__` takes the instance and returns the updated instance.
A weak-cache entry is modelled as present exactly while the cached value is alive;
garbage collection would be an external step removing entries, and no such step is
performed between the accesses a claim talks about unless the claim says so.
-/

/-- Python `def id_func(x): return x` (line 4 of the source). -/
def id_func {α : Type} (x : α) : α := x

/-- Python `LazySequence._apply_maps` (lines 45-48): fold the value through every
map function in registration order. -/
def applyMaps {α : Type} (fs : List (α → α)) (v : α) : α :=
  fs.foldl (fun val m => m val) v

/-- A Python `slice(start, stop, step)` object; `none` models Python `None`. -/
structure PySlice where
  start : Option Int
  stop : Option Int
  step : Option Int

/-- CPython `PySlice_AdjustIndices` clamping of one endpoint against length `L`
(`stepNeg` tells whether the step is negative). -/
def adjustIndex (stepNeg : Bool) (L : Int) (v : Int) : Int :=
  if v < 0 then
    if v + L < 0 then (if stepNeg then -1 else 0) else v + L
  else if L ≤ v then (if stepNeg then L - 1 else L) else v

/-- The resolved (start, stop, step) of a slice against a sequence of length `L`. -/
structure SliceIdx where
  start : Int
  stop : Int
  step : Int

/-- The resolved start of a slice: default (`None`) start is the first index
walked by the step direction; an explicit start is clamped. -/
def resolveStart (o : Option Int) (neg : Bool) (L : Int) : Int :=
  match o with
  | none => if neg then L - 1 else 0
  | some v => adjustIndex neg L v

/-- The resolved stop of a slice: default (`None`) stop is one past the last
index walked by the step direction; an explicit stop is clamped. -/
def resolveStop (o : Option Int) (neg : Bool) (L : Int) : Int :=
  match o with
  | none => if neg then -1 else L
  | some v => adjustIndex neg L v

/-- Resolve a Python slice against length `L`, replicating CPython
`PySlice_Unpack` + `PySlice_AdjustIndices` (defaults for `None`, negative
indices counted from the end, clamping).  A `step` of `0` raises in Python and is
handled by the callers that can see it (`PyRange.sliceE`). -/
def resolveSlice (s : PySlice) (L : Nat) : SliceIdx :=
  let step := s.step.getD 1
  let neg : Bool := step < 0
  { start := resolveStart s.start neg L
    stop := resolveStop s.stop neg L
    step := step }

/-- Number of indices selected by a resolved slice (CPython's slicelength
computation in `PySlice_AdjustIndices`). -/
def SliceIdx.len (p : SliceIdx) : Nat :=
  if p.step < 0 then
    (if p.stop < p.start then (p.start - p.stop - 1) / (-p.step) + 1 else 0).toNat
  else
    (if p.start < p.stop then (p.stop - p.start - 1) / p.step + 1 else 0).toNat

/-- A Python `range` object, in the normal form (first element, step, length);
element `i` is `start + i * step`.  `range(n)` is `⟨0, 1, n⟩`. -/
structure PyRange where
  start : Int
  step : Int
  len : Nat

/-- Element of a range at an integer position (no bounds check). -/
def PyRange.nthI (r : PyRange) (j : Int) : Int := r.start + j * r.step

/-- Element of a range at a natural position (no bounds check). -/
def PyRange.nth (r : PyRange) (i : Nat) : Int := r.nthI i

/-- Python `range.__getitem__` with an integer index: negative indices count from
the end; out-of-range raises `IndexError`. -/
def PyRange.getItem (r : PyRange) (i : Int) : Except String Int :=
  let i' := if i < 0 then i + r.len else i
  if i' < 0 ∨ (r.len : Int) ≤ i' then .error "range object index out of range"
  else .ok (r.nthI i')

/-- Python `range.__getitem__` with a slice, assuming a nonzero step: CPython
computes the adjusted indices against `len(r)` and returns
`range(r.start + start*r.step, ..., r.step*step)` of the slice length. -/
def PyRange.sliceRange (r : PyRange) (s : PySlice) : PyRange :=
  let p := resolveSlice s r.len
  { start := r.start + p.start * r.step, step := r.step * p.step, len := p.len }

/-- Python `range.__getitem__` with a slice, including the `ValueError` raised
when the slice step is zero. -/
def PyRange.sliceE (r : PyRange) (s : PySlice) : Except String PyRange :=
  if s.step = some 0 then .error "slice step cannot be zero"
  else .ok (r.sliceRange s)

/-- Python list/tuple `__getitem__` with an integer index: negative indices count
from the end; out-of-range raises `IndexError`. -/
def pyListGet {α : Type} (l : List α) (i : Int) : Except String α :=
  let i' := if i < 0 then i + l.length else i
  if i' < 0 then .error "index out of range"
  else
    match l[i'.toNat]? with
    | some v => .ok v
    | none => .error "index out of range"

/-- Python list slicing `l[start:stop:step]` for a nonzero step: CPython resolves
the slice against `len(l)` and copies the elements at `start`, `start+step`, ...
The default `d` is never read when the index is in bounds, which
`resolveSlice_bounds` proves it always is. -/
def pyListSlice {α : Type} (l : List α) (d : α) (s : PySlice) : List α :=
  let p := resolveSlice s l.length
  (List.range p.len).map (fun (i : Nat) => l.getD (p.start + (i : Int) * p.step).toNat d)

/-- The heap of base-collection objects: a reference (`id`) for every Python
sequence object that can be wrapped. -/
def Store (α : Type) : Type := Nat → List α

/-- The process-wide strong-reference deque `LazySequence._ref_lru`
(`collections.deque(maxlen=...)`). -/
structure PinPool (α : Type) where
  maxlen : Option Nat
  items : List α

/-- `collections.deque(iterable, maxlen)`: keeps the last `maxlen` items. -/
def dequeOf {α : Type} (items : List α) (maxlen : Option Nat) : List α :=
  match maxlen with
  | none => items
  | some m => items.drop (items.length - m)

/-- `deque.append` with a `maxlen`: appends on the right, silently dropping the
oldest (leftmost) item when full. -/
def PinPool.push {α : Type} (p : PinPool α) (v : α) : PinPool α :=
  { p with items := dequeOf (p.items ++ [v]) p.maxlen }

/-- A `LazySequence` instance: reference to the base collection, the index range
`_base_range`, the pipeline `_map_funcs`, and the per-instance weak cache
`_weakref_cache` (listing the currently alive entries). -/
structure LazySeq (α : Type) where
  base_ref : Nat
  base_range : PyRange
  map_funcs : List (α → α)
  cache : List (Int × α)

/-- Python `len(lazy_seq)` (lines 42-43): `len(self._base_range)`. -/
def LazySeq.pyLen {α : Type} (L : LazySeq α) : Nat := L.base_range.len

/-- Constructor branch for `isinstance(seq, LazySequence)` (lines 21-28): share
the base reference and range, copy the pipeline into a fresh list appending
`map_func` when given, fresh empty cache. -/
def LazySeq.ofLazy {α : Type} (src : LazySeq α) (f : Option (α → α)) : LazySeq α :=
  { base_ref := src.base_ref
    base_range := src.base_range
    map_funcs := src.map_funcs ++ f.toList
    cache := [] }

/-- Constructor branch for a raw sequence (lines 30-37): store the reference,
`range(len(seq))`, and the one-element pipeline (`map_func` or `id_func`). -/
def LazySeq.ofSeq {α : Type} (σ : Store α) (r : Nat) (f : Option (α → α)) : LazySeq α :=
  { base_ref := r
    base_range := { start := 0, step := 1, len := (σ r).length }
    map_funcs := [f.getD id_func]
    cache := [] }

/-- `__getitem__` slice branch (lines 51-54): `sub = LazySequence(self)` then
`sub._base_range = self._base_range[index]`, total form for a nonzero step. -/
def LazySeq.sliceItem {α : Type} (L : LazySeq α) (s : PySlice) : LazySeq α :=
  { LazySeq.ofLazy L none with base_range := L.base_range.sliceRange s }

/-- `__getitem__` slice branch including the `ValueError` raised by
`self._base_range[index]` when the slice step is zero. -/
def LazySeq.sliceItemE {α : Type} (L : LazySeq α) (s : PySlice) : Except String (LazySeq α) :=
  match L.base_range.sliceE s with
  | .error e => .error e
  | .ok rng => .ok { LazySeq.ofLazy L none with base_range := rng }

/-- The cache-miss compute path of integer `__getitem__` (line 60):
`self._apply_maps(self._base_seq[self._base_range[index]])`, with the
`IndexError` of either lookup propagated. -/
def LazySeq.getItemInt {α : Type} (σ : Store α) (L : LazySeq α) (i : Int) : Except String α :=
  match L.base_range.getItem i with
  | .error e => .error e
  | .ok j =>
    match pyListGet (σ L.base_ref) j with
    | .error e => .error e
    | .ok v => .ok (applyMaps L.map_funcs v)

/-- Lookup in the per-instance weak cache (Python dict lookup; later insertions
shadow earlier ones because insertion conses to the front). -/
def cacheLookup {α : Type} : List (Int × α) → Int → Option α
  | [], _ => none
  | (k, v) :: rest, i => if k = i then some v else cacheLookup rest i

/-- Result of an integer `__getitem__`: the value, the updated instance, the
updated pin pool, and whether `_apply_maps` was invoked during this access
(`computed` instruments the access-counting scenarios of the spec). -/
structure GetRes (α : Type) where
  val : α
  seq : LazySeq α
  pool : PinPool α
  computed : Bool

/-- Integer `__getitem__` (lines 55-70).  `wr` models `hasattr(item, '__weakref__')`.
The Python code uses `None` as its cache-miss sentinel
(`item = ca[index] if index in ca else None`); a cached value can never itself be
`None` because `None` is not weak-referenceable, so an `Option` match is a
faithful translation.  On a cacheable miss the value is stored in the weak cache
and a strong reference is appended to the pin pool. -/
def LazySeq.getItemSt {α : Type} (σ : Store α) (wr : α → Bool) (L : LazySeq α)
    (pool : PinPool α) (i : Int) : Except String (GetRes α) :=
  match cacheLookup L.cache i with
  | some item => .ok ⟨item, L, pool, false⟩
  | none =>
    match L.getItemInt σ i with
    | .error e => .error e
    | .ok item =>
      if wr item then
        .ok ⟨item, { L with cache := (i, item) :: L.cache }, pool.push item, true⟩
      else
        .ok ⟨item, L, pool, true⟩

/-- Materialization `list(lazy_seq)`: the `Sequence` mixin iterates
`self[0], self[1], ...` until `IndexError`, so for a well-formed sequence it
yields exactly the pipeline applied to the base element at every range position.
The default `d` is never read when the sequence is well formed (`WF`). -/
def LazySeq.matD {α : Type} (σ : Store α) (L : LazySeq α) (d : α) : List α :=
  (List.range L.base_range.len).map
    (fun i => applyMaps L.map_funcs ((σ L.base_ref).getD (L.base_range.nth i).toNat d))

/-- Well-formedness: every index-range element points inside the base collection.
It holds for every sequence built by the constructor and is preserved by slicing. -/
def WF {α : Type} (σ : Store α) (L : LazySeq α) : Prop :=
  ∀ i, i < L.base_range.len →
    0 ≤ L.base_range.nth i ∧ L.base_range.nth i < ((σ L.base_ref).length : Int)

/-- Cache consistency: every alive cache entry holds exactly the value the
compute path produces for its key.  The code only ever inserts computed values,
so every reachable instance satisfies this. -/
def CacheOK {α : Type} (σ : Store α) (L : LazySeq α) : Prop :=
  ∀ p ∈ L.cache, L.getItemInt σ p.1 = Except.ok p.2

/-- The `map_func` argument of the constructor: Python `None`, a callable object
of some arity, or a non-callable object.  `isinstance(map_func, Callable)` only
sees callability, never the arity. -/
inductive MapFuncArg (α : Type) where
  | pyNone
  | callable (arity : Nat) (f : α → α)
  | notCallable

/-- `map_func is not None and not isinstance(map_func, Callable)` (line 17). -/
def MapFuncArg.failsCheck {α : Type} : MapFuncArg α → Bool
  | .notCallable => true
  | _ => false

/-- The function actually appended to the pipeline, when one was given. -/
def MapFuncArg.toFun {α : Type} : MapFuncArg α → Option (α → α)
  | .callable _ f => some f
  | _ => none

/-- The `seq` argument of the constructor: a `LazySequence`, an object registered
with the `Sequence` ABC (list, tuple, ...), a duck-typed object that supports
length and indexed read but is not registered with the ABC, or anything else.
`isinstance(seq, Sequence)` is a nominal check: it is false for `duckSeq`. -/
inductive SeqArg (α : Type) where
  | lazy (L : LazySeq α)
  | seq (r : Nat)
  | duckSeq (r : Nat)
  | nonSeq

/-- Whether `isinstance(seq, LazySequence) or isinstance(seq, Sequence)` holds. -/
def SeqArg.isTrueSeq {α : Type} : SeqArg α → Bool
  | .lazy _ => true
  | .seq _ => true
  | _ => false

/-- `LazySequence.__init__` (lines 16-40): validate `map_func`, then branch on
the kind of `seq`; reject anything that is not an ABC-registered sequence. -/
def pyInit {α : Type} (σ : Store α) (sa : SeqArg α) (mf : MapFuncArg α) :
    Except String (LazySeq α) :=
  if mf.failsCheck then .error "LazySequence: map_func must be callable."
  else
    match sa with
    | .lazy L => .ok (LazySeq.ofLazy L mf.toFun)
    | .seq r => .ok (LazySeq.ofSeq σ r mf.toFun)
    | .duckSeq _ => .error "LazySequence: seq must be a true sequence."
    | .nonSeq => .error "LazySequence: seq must be a true sequence."

/-- Lookup of a class attribute by name on `LazySequence`. -/
def attrLookup {α : Type} : List (String × PinPool α) → String → Option (PinPool α)
  | [], _ => none
  | (n, p) :: rest, name => if n = name then some p else attrLookup rest name

/-- Assignment of a class attribute by name (overwrite or add). -/
def attrSet {α : Type} : List (String × PinPool α) → String → PinPool α →
    List (String × PinPool α)
  | [], name, p => [(name, p)]
  | (n, q) :: rest, name, p =>
    if n = name then (name, p) :: rest else (n, q) :: attrSet rest name p

/-- The class attributes of `LazySequence` as the class body defines them
(line 14): only `_ref_lru = deque(maxlen=10000)`. -/
def initClassAttrs (α : Type) : List (String × PinPool α) :=
  [("_ref_lru", { maxlen := some 10000, items := [] })]

/-- `LazySequence.set_cache_size` (lines 76-78):
`cls._ref_lru = deque(cls._weakref_lru, maxlen)`.  The right-hand side reads the
class attribute `_weakref_lru`, which is looked up before anything is assigned;
if it is absent the statement raises `AttributeError`. -/
def set_cache_size {α : Type} (attrs : List (String × PinPool α)) (maxlen : Nat) :
    Except String (List (String × PinPool α)) :=
  match attrLookup attrs "_weakref_lru" with
  | none => .error "AttributeError: type object LazySequence has no attribute _weakref_lru"
  | some p =>
    .ok (attrSet attrs "_ref_lru" { maxlen := some maxlen, items := dequeOf p.items (some maxlen) })

/-- A `LazySequence` instance as a Python heap object: its identity (`oid`) plus
its state.  `LazySequence` defines no `__eq__`, and `collections.Sequence`
supplies none either, so `a == b` falls back to `object.__eq__`, which is
identity comparison `a is b`. -/
structure PyLazyObj (α : Type) where
  oid : Nat
  val : LazySeq α

/-- Python `a is b` for two facade objects. -/
def pyIs {α : Type} (a b : PyLazyObj α) : Bool := a.oid == b.oid

/-- Python `a == b` for two `LazySequence` objects: no `__eq__` anywhere on the
class or its ABC bases, so this is `object.__eq__`, i.e. identity. -/
def pyEqLazySeq {α : Type} (a b : PyLazyObj α) : Bool := pyIs a b

/-- Whether an `Except` is an error. -/
def isErrorB {α : Type} : Except String α → Bool
  | .error _ => true
  | .ok _ => false

/-- Whether an `Except` is a success. -/
def isOkB {α : Type} : Except String α → Bool
  | .error _ => false
  | .ok _ => true

/-- The value produced by an integer access, when it succeeded. -/
def exVal {α : Type} : Except String (GetRes α) → Option α
  | .error _ => none
  | .ok r => some r.val

/-- A concrete three-element base collection used by concrete instances. -/
def σ3 : Store Nat := fun _ => [10, 20, 30]

/-- A concrete ten-element base collection used by concrete instances. -/
def σ10 : Store Nat := fun _ => [0, 1, 2, 3, 4, 5, 6, 7, 8, 9]

/-- An empty store: every reference points at the empty sequence. -/
def σempty : Store Nat := fun _ => []

lemma adjustIndex_bounds (neg : Bool) (L v : Int) (hL : 0 ≤ L) :
    (if neg then -1 else 0) ≤ adjustIndex neg L v ∧
    adjustIndex neg L v ≤ (if neg then L - 1 else L) := by
  cases neg <;> simp only [adjustIndex] <;> split_ifs <;> simp_all <;> omega

lemma resolveStart_bounds (o : Option Int) (neg : Bool) (L : Int) (hL : 0 ≤ L) :
    (if neg then -1 else 0) ≤ resolveStart o neg L ∧
    resolveStart o neg L ≤ (if neg then L - 1 else L) := by
  cases o with
  | none => cases neg <;> simp [resolveStart] <;> omega
  | some v => exact adjustIndex_bounds neg L v hL

lemma resolveStop_bounds (o : Option Int) (neg : Bool) (L : Int) (hL : 0 ≤ L) :
    (if neg then -1 else 0) ≤ resolveStop o neg L ∧
    resolveStop o neg L ≤ (if neg then L - 1 else L) := by
  cases o with
  | none => cases neg <;> simp [resolveStop] <;> omega
  | some v => exact adjustIndex_bounds neg L v hL

lemma resolveSlice_step (s : PySlice) (L : Nat) :
    (resolveSlice s L).step = s.step.getD 1 := rfl

lemma resolveSlice_start (s : PySlice) (L : Nat) :
    (resolveSlice s L).start = resolveStart s.start (decide (s.step.getD 1 < 0)) L := rfl

lemma resolveSlice_stop (s : PySlice) (L : Nat) :
    (resolveSlice s L).stop = resolveStop s.stop (decide (s.step.getD 1 < 0)) L := rfl

lemma ediv_step_le {d b : Int} (hb : 0 < b) (i : Int) (hi : i ≤ d / b) :
    i * b ≤ d := by
  have h1 := Int.ediv_add_emod d b
  have h2 := Int.emod_nonneg d (by omega : b ≠ 0)
  have h3 : i * b ≤ (d / b) * b := mul_le_mul_of_nonneg_right hi (le_of_lt hb)
  nlinarith [h1, h2, h3]

lemma resolveSlice_bounds (s : PySlice) (L : Nat) (i : Nat)
    (hi : i < (resolveSlice s L).len) :
    0 ≤ (resolveSlice s L).start + (i : Int) * (resolveSlice s L).step ∧
    (resolveSlice s L).start + (i : Int) * (resolveSlice s L).step < (L : Int) := by
  have hL : (0 : Int) ≤ (L : Int) := Int.natCast_nonneg L
  have hstep : (resolveSlice s L).step = s.step.getD 1 := rfl
  rcases lt_trichotomy ((resolveSlice s L).step) 0 with hq | hq | hq
  · -- negative step
    have hd : decide (s.step.getD 1 < 0) = true := by
      rw [← hstep]; simpa using hq
    have hstart : -1 ≤ (resolveSlice s L).start ∧ (resolveSlice s L).start ≤ (L : Int) - 1 := by
      have := resolveStart_bounds s.start (decide (s.step.getD 1 < 0)) L hL
      rw [hd] at this
      simpa [resolveSlice_start, hd] using this
    have hstop : -1 ≤ (resolveSlice s L).stop ∧ (resolveSlice s L).stop ≤ (L : Int) - 1 := by
      have := resolveStop_bounds s.stop (decide (s.step.getD 1 < 0)) L hL
      rw [hd] at this
      simpa [resolveSlice_stop, hd] using this
    have hlen : (resolveSlice s L).len
        = (if (resolveSlice s L).stop < (resolveSlice s L).start then
            ((resolveSlice s L).start - (resolveSlice s L).stop - 1) / (-(resolveSlice s L).step) + 1
          else 0).toNat := by
      simp [SliceIdx.len, hq]
    by_cases hsp : (resolveSlice s L).stop < (resolveSlice s L).start
    · rw [hlen, if_pos hsp] at hi
      have hq0 : 0 ≤ ((resolveSlice s L).start - (resolveSlice s L).stop - 1) / (-(resolveSlice s L).step) :=
        Int.ediv_nonneg (by omega) (by omega)
      have hiq : (i : Int) ≤ ((resolveSlice s L).start - (resolveSlice s L).stop - 1) / (-(resolveSlice s L).step) := by
        generalize hg : ((resolveSlice s L).start - (resolveSlice s L).stop - 1) / (-(resolveSlice s L).step) = qd at hi hq0
        omega
      have h5 : (i : Int) * (-(resolveSlice s L).step) ≤ (resolveSlice s L).start - (resolveSlice s L).stop - 1 :=
        ediv_step_le (by omega) _ hiq
      have h6 : (i : Int) * (resolveSlice s L).step ≤ 0 :=
        mul_nonpos_iff.mpr (Or.inl ⟨Int.natCast_nonneg i, le_of_lt hq⟩)
      constructor
      · nlinarith [h5, hstop.1]
      · nlinarith [h6, hstart.2]
    · rw [hlen, if_neg hsp] at hi
      simp at hi
  · -- zero step: the length is 1 when start < stop (Int division by zero is zero)
    have hd : decide (s.step.getD 1 < 0) = false := by
      rw [← hstep]; simp [hq]
    have hstart : 0 ≤ (resolveSlice s L).start ∧ (resolveSlice s L).start ≤ (L : Int) := by
      have := resolveStart_bounds s.start (decide (s.step.getD 1 < 0)) L hL
      rw [hd] at this
      simpa [resolveSlice_start, hd] using this
    have hstop : 0 ≤ (resolveSlice s L).stop ∧ (resolveSlice s L).stop ≤ (L : Int) := by
      have := resolveStop_bounds s.stop (decide (s.step.getD 1 < 0)) L hL
      rw [hd] at this
      simpa [resolveSlice_stop, hd] using this
    have hlen : (resolveSlice s L).len
        = (if (resolveSlice s L).start < (resolveSlice s L).stop then
            ((resolveSlice s L).stop - (resolveSlice s L).start - 1) / (resolveSlice s L).step + 1
          else 0).toNat := by
      simp [SliceIdx.len, hq]
    by_cases hsp : (resolveSlice s L).start < (resolveSlice s L).stop
    · rw [hlen, if_pos hsp, hq] at hi
      simp [Int.ediv_zero] at hi
      subst hi
      rw [hq]
      constructor
      · simpa using hstart.1
      · simp
        omega
    · rw [hlen, if_neg hsp] at hi
      simp at hi
  · -- positive step
    have hd : decide (s.step.getD 1 < 0) = false := by
      rw [← hstep]; simp; omega
    have hstart : 0 ≤ (resolveSlice s L).start ∧ (resolveSlice s L).start ≤ (L : Int) := by
      have := resolveStart_bounds s.start (decide (s.step.getD 1 < 0)) L hL
      rw [hd] at this
      simpa [resolveSlice_start, hd] using this
    have hstop : 0 ≤ (resolveSlice s L).stop ∧ (resolveSlice s L).stop ≤ (L : Int) := by
      have := resolveStop_bounds s.stop (decide (s.step.getD 1 < 0)) L hL
      rw [hd] at this
      simpa [resolveSlice_stop, hd] using this
    have hlen : (resolveSlice s L).len
        = (if (resolveSlice s L).start < (resolveSlice s L).stop then
            ((resolveSlice s L).stop - (resolveSlice s L).start - 1) / (resolveSlice s L).step + 1
          else 0).toNat := by
      simp [SliceIdx.len]
      omega
    by_cases hsp : (resolveSlice s L).start < (resolveSlice s L).stop
    · rw [hlen, if_pos hsp] at hi
      have hq0 : 0 ≤ ((resolveSlice s L).stop - (resolveSlice s L).start - 1) / (resolveSlice s L).step :=
        Int.ediv_nonneg (by omega) (by omega)
      have hiq : (i : Int) ≤ ((resolveSlice s L).stop - (resolveSlice s L).start - 1) / (resolveSlice s L).step := by
        generalize hg : ((resolveSlice s L).stop - (resolveSlice s L).start - 1) / (resolveSlice s L).step = qd at hi hq0
        omega
      have h5 : (i : Int) * (resolveSlice s L).step ≤ (resolveSlice s L).stop - (resolveSlice s L).start - 1 :=
        ediv_step_le (by omega) _ hiq
      have h6 : 0 ≤ (i : Int) * (resolveSlice s L).step :=
        mul_nonneg (Int.natCast_nonneg i) (le_of_lt hq)
      constructor
      · nlinarith [h6, hstart.1]
      · nlinarith [h5, hstop.2]
    · rw [hlen, if_neg hsp] at hi
      simp at hi

lemma sliceRange_len (r : PyRange) (s : PySlice) :
    (r.sliceRange s).len = (resolveSlice s r.len).len := rfl

lemma sliceRange_nth (r : PyRange) (s : PySlice) (i : Nat) :
    (r.sliceRange s).nth i
      = r.nthI ((resolveSlice s r.len).start + (i : Int) * (resolveSlice s r.len).step) := by
  simp only [PyRange.sliceRange, PyRange.nth, PyRange.nthI]
  ring

lemma range_map_getD {α : Type} (F : Nat → α) (n k : Nat) (d : α) (hk : k < n) :
    ((List.range n).map F).getD k d = F k := by
  rw [List.getD_eq_getElem _ _ (by simpa using hk)]
  simp

lemma list_map_getD_range {α : Type} (l : List α) (g : α → α) (d : α) :
    (List.range l.length).map (fun i => g (l.getD i d)) = l.map g := by
  apply List.ext_getElem (by simp)
  intro i h1 h2
  have hi : i < l.length := by simpa using h2
  simp only [List.getElem_map, List.getElem_range, List.getD_eq_getElem l d hi]

lemma applyMaps_append {α : Type} (fs : List (α → α)) (g : α → α) (v : α) :
    applyMaps (fs ++ [g]) v = g (applyMaps fs v) := by
  simp [applyMaps, List.foldl_append]

lemma matD_length {α : Type} (σ : Store α) (L : LazySeq α) (d : α) :
    (L.matD σ d).length = L.base_range.len := by
  simp [LazySeq.matD]

lemma pyListSlice_of_range_map {α : Type} (F : Nat → α) (n : Nat) (d : α) (s : PySlice) :
    pyListSlice ((List.range n).map F) d s
      = (List.range (resolveSlice s n).len).map
          (fun (i : Nat) => F ((resolveSlice s n).start + (i : Int) * (resolveSlice s n).step).toNat) := by
  have hlen : ((List.range n).map F).length = n := by simp
  simp only [pyListSlice, hlen]
  apply List.map_congr_left
  intro i hi
  have hi' : i < (resolveSlice s n).len := by simpa using hi
  have hb := resolveSlice_bounds s n i hi'
  exact range_map_getD F n _ d (by omega)

lemma matD_sliceItem {α : Type} (σ : Store α) (L : LazySeq α) (s : PySlice) (d : α) :
    (L.sliceItem s).matD σ d = pyListSlice (L.matD σ d) d s := by
  have hmat : L.matD σ d = (List.range L.base_range.len).map
      (fun i => applyMaps L.map_funcs ((σ L.base_ref).getD (L.base_range.nth i).toNat d)) := rfl
  rw [hmat, pyListSlice_of_range_map]
  simp only [LazySeq.matD, LazySeq.sliceItem, LazySeq.ofLazy, Option.toList_none,
    List.append_nil, sliceRange_len]
  apply List.map_congr_left
  intro i hi
  have hi' : i < (resolveSlice s L.base_range.len).len := by simpa using hi
  have hb := resolveSlice_bounds s L.base_range.len i hi'
  rw [sliceRange_nth, PyRange.nth, Int.toNat_of_nonneg hb.1]

lemma matD_ofSeq {α : Type} (σ : Store α) (r : Nat) (f : Option (α → α)) (d : α) :
    (LazySeq.ofSeq σ r f).matD σ d = (σ r).map (f.getD id_func) := by
  simp only [LazySeq.matD, LazySeq.ofSeq]
  have hnth : ∀ i : Nat, (PyRange.mk 0 1 (σ r).length).nth i = (i : Int) := by
    intro i
    simp [PyRange.nth, PyRange.nthI]
  have happ : ∀ v : α, applyMaps [f.getD id_func] v = (f.getD id_func) v := by
    intro v
    simp [applyMaps]
  calc (List.range (σ r).length).map
        (fun i => applyMaps [f.getD id_func] ((σ r).getD ((PyRange.mk 0 1 (σ r).length).nth i).toNat d))
      = (List.range (σ r).length).map (fun i => (f.getD id_func) ((σ r).getD i d)) := by
        apply List.map_congr_left
        intro i _
        rw [hnth, happ, Int.toNat_natCast]
    _ = (σ r).map (f.getD id_func) := list_map_getD_range (σ r) (f.getD id_func) d

lemma matD_ofLazy_some {α : Type} (σ : Store α) (L : LazySeq α) (g : α → α) (d : α) :
    (LazySeq.ofLazy L (some g)).matD σ d = (L.matD σ d).map g := by
  simp only [LazySeq.matD, LazySeq.ofLazy, Option.toList_some, List.map_map]
  apply List.map_congr_left
  intro i _
  simp [Function.comp, applyMaps_append]

lemma PyRange.getItem_error_iff (r : PyRange) (i : Int) :
    isErrorB (r.getItem i) = true ↔ (i < -(r.len : Int) ∨ (r.len : Int) ≤ i) := by
  simp only [PyRange.getItem]
  split_ifs with h1 <;> simp [isErrorB] <;> omega

lemma PyRange.getItem_ok_val (r : PyRange) (i : Int) (h0 : 0 ≤ i) (h1 : i < (r.len : Int)) :
    r.getItem i = Except.ok (r.nthI i) := by
  simp only [PyRange.getItem]
  rw [if_neg (by omega : ¬ i < 0), if_neg (by omega : ¬ (i < 0 ∨ (r.len : Int) ≤ i))]

lemma PyRange.getItem_norm (r : PyRange) (i : Int) (h0 : -(r.len : Int) ≤ i)
    (h1 : i < (r.len : Int)) :
    r.getItem i = Except.ok (r.nthI (if i < 0 then i + r.len else i)) := by
  simp only [PyRange.getItem]
  by_cases hneg : i < 0
  · rw [if_pos hneg, if_neg (by omega)]
  · rw [if_neg hneg, if_neg (by omega)]

lemma pyListGet_ok {α : Type} (l : List α) (j : Int) (d : α) (h0 : 0 ≤ j)
    (h1 : j < (l.length : Int)) :
    pyListGet l j = Except.ok (l.getD j.toNat d) := by
  simp only [pyListGet]
  rw [if_neg (by omega : ¬ j < 0), if_neg (by omega : ¬ j < 0)]
  rw [List.getElem?_eq_getElem (by omega : j.toNat < l.length)]
  rw [List.getD_eq_getElem l d (by omega : j.toNat < l.length)]

lemma pyListGet_ok_exists {α : Type} (l : List α) (j : Int) (h0 : 0 ≤ j)
    (h1 : j < (l.length : Int)) : ∃ v, pyListGet l j = Except.ok v := by
  refine ⟨l.get ⟨j.toNat, by omega⟩, ?_⟩
  simp only [pyListGet]
  rw [if_neg (by omega : ¬ j < 0), if_neg (by omega : ¬ j < 0)]
  rw [List.getElem?_eq_getElem (by omega : j.toNat < l.length)]
  simp [List.get_eq_getElem]

lemma nth_eq_nthI {r : PyRange} {i : Int} (h0 : 0 ≤ i) : r.nth i.toNat = r.nthI i := by
  simp only [PyRange.nth]
  rw [Int.toNat_of_nonneg h0]

lemma getItemInt_ok {α : Type} (σ : Store α) (L : LazySeq α) (i : Int) (d : α)
    (hWF : WF σ L) (h0 : 0 ≤ i) (h1 : i < (L.pyLen : Int)) :
    L.getItemInt σ i
      = Except.ok (applyMaps L.map_funcs ((σ L.base_ref).getD (L.base_range.nthI i).toNat d)) := by
  have h2 := PyRange.getItem_ok_val L.base_range i h0 h1
  have hlt : i.toNat < L.base_range.len := by
    have hc : L.pyLen = L.base_range.len := rfl
    omega
  have hb := hWF i.toNat hlt
  rw [nth_eq_nthI h0] at hb
  have h3 := pyListGet_ok (σ L.base_ref) (L.base_range.nthI i) d hb.1 hb.2
  simp only [LazySeq.getItemInt, h2, h3]

lemma getItemInt_error_iff {α : Type} (σ : Store α) (L : LazySeq α) (i : Int)
    (hWF : WF σ L) :
    isErrorB (L.getItemInt σ i) = true ↔ (i < -(L.pyLen : Int) ∨ (L.pyLen : Int) ≤ i) := by
  have hcast : (L.pyLen : Int) = (L.base_range.len : Int) := rfl
  by_cases hout : i < -(L.pyLen : Int) ∨ (L.pyLen : Int) ≤ i
  · have herr : isErrorB (L.base_range.getItem i) = true :=
      (PyRange.getItem_error_iff L.base_range i).mpr (by omega)
    rcases hr : L.base_range.getItem i with e | j
    · unfold LazySeq.getItemInt
      rw [hr]
      simpa [isErrorB] using hout
    · rw [hr] at herr
      simp [isErrorB] at herr
  · push_neg at hout
    have hcast2 : L.pyLen = L.base_range.len := rfl
    have hnorm := PyRange.getItem_norm L.base_range i (by omega) (by omega)
    have hin : 0 ≤ (if i < 0 then i + ((L.base_range.len : Int)) else i) ∧
        (if i < 0 then i + ((L.base_range.len : Int)) else i) < (L.base_range.len : Int) := by
      split_ifs <;> omega
    have hb := hWF (if i < 0 then i + ((L.base_range.len : Int)) else i).toNat (by omega)
    rw [nth_eq_nthI hin.1] at hb
    obtain ⟨v, hv⟩ := pyListGet_ok_exists (σ L.base_ref) _ hb.1 hb.2
    simp only [LazySeq.getItemInt, hnorm, hv, isErrorB]
    constructor
    · intro h
      cases h
    · intro h
      omega

lemma cacheLookup_mem {α : Type} {c : List (Int × α)} {i : Int} {v : α}
    (h : cacheLookup c i = some v) : (i, v) ∈ c := by
  induction c with
  | nil => simp [cacheLookup] at h
  | cons p rest ih =>
    obtain ⟨k, w⟩ := p
    simp only [cacheLookup] at h
    by_cases hk : k = i
    · rw [if_pos hk] at h
      subst hk
      cases h
      exact List.mem_cons_self _ _
    · rw [if_neg hk] at h
      exact List.mem_cons_of_mem _ (ih h)

lemma WF_ofSeq {α : Type} (σ : Store α) (r : Nat) (f : Option (α → α)) :
    WF σ (LazySeq.ofSeq σ r f) := by
  intro i hi
  simp only [LazySeq.ofSeq] at hi ⊢
  simp [PyRange.nth, PyRange.nthI]
  omega

lemma WF_sliceItem {α : Type} (σ : Store α) (L : LazySeq α) (s : PySlice)
    (h : WF σ L) : WF σ (L.sliceItem s) := by
  intro i hi
  have hi' : i < (resolveSlice s L.base_range.len).len := hi
  have hb := resolveSlice_bounds s L.base_range.len i hi'
  have hnth : (L.base_range.sliceRange s).nth i
      = L.base_range.nth ((resolveSlice s L.base_range.len).start
          + (i : Int) * (resolveSlice s L.base_range.len).step).toNat := by
    rw [sliceRange_nth, ← nth_eq_nthI hb.1]
  have hlt : ((resolveSlice s L.base_range.len).start
      + (i : Int) * (resolveSlice s L.base_range.len).step).toNat < L.base_range.len := by
    omega
  have := h _ hlt
  simpa [LazySeq.sliceItem, LazySeq.ofLazy, hnth] using this

lemma sliceItemE_ok {α : Type} (L : LazySeq α) (s : PySlice) (h : s.step ≠ some 0) :
    L.sliceItemE s = Except.ok (L.sliceItem s) := by
  unfold LazySeq.sliceItemE PyRange.sliceE
  rw [if_neg h]
  rfl

/-- C1: for every base collection, optional map `f`, map `g`, and slice pair
`(s1, s2)` with nonzero steps, materializing `LazySequence(S, f)[s1]` equals
eagerly mapping `f` over `S` and then list-slicing with `s1`; and materializing
`LazySequence(LazySequence(S, f)[s1], g)[s2]` equals eagerly mapping `f`,
slicing with `s1`, eagerly mapping `g`, and slicing with `s2` — lazy
slice/pipeline composition is observationally equivalent to eager application. -/
theorem C1_slice_pipeline_composition {α : Type} (σ : Store α) (r : Nat)
    (f : Option (α → α)) (g : α → α) (s1 s2 : PySlice) (d : α)
    (_h1 : s1.step ≠ some 0) (_h2 : s2.step ≠ some 0) :
    ((LazySeq.ofSeq σ r f).sliceItem s1).matD σ d
        = pyListSlice ((σ r).map (f.getD id_func)) d s1
    ∧ ((LazySeq.ofLazy ((LazySeq.ofSeq σ r f).sliceItem s1) (some g)).sliceItem s2).matD σ d
        = pyListSlice ((pyListSlice ((σ r).map (f.getD id_func)) d s1).map g) d s2 := by
  constructor
  · rw [matD_sliceItem, matD_ofSeq]
  · rw [matD_sliceItem, matD_ofLazy_some, matD_sliceItem, matD_ofSeq]

/-- Witness for C1 at a concrete input: base `0..9`, `f x = x * x`,
`s1 = [1:9:2]`, `g x = x + 1`, `s2 = [::-1]`. -/
theorem C1_slice_pipeline_composition_witness :
    ((LazySeq.ofSeq σ10 0 (some (fun x => x * x))).sliceItem (PySlice.mk (some 1) (some 9) (some 2))).matD σ10 0
        = pyListSlice ((σ10 0).map ((some (fun x => x * x)).getD id_func)) 0 (PySlice.mk (some 1) (some 9) (some 2))
    ∧ ((LazySeq.ofLazy ((LazySeq.ofSeq σ10 0 (some (fun x => x * x))).sliceItem (PySlice.mk (some 1) (some 9) (some 2))) (some (fun x => x + 1))).sliceItem (PySlice.mk none none (some (-1)))).matD σ10 0
        = pyListSlice ((pyListSlice ((σ10 0).map ((some (fun x => x * x)).getD id_func)) 0 (PySlice.mk (some 1) (some 9) (some 2))).map (fun x => x + 1)) 0 (PySlice.mk none none (some (-1))) :=
  C1_slice_pipeline_composition σ10 0 (some (fun x => x * x)) (fun x => x + 1)
    (PySlice.mk (some 1) (some 9) (some 2)) (PySlice.mk none none (some (-1))) 0
    (by decide) (by decide)

/-- C2 counterexample: two `LazySequence` objects built via different pipelines
over the same base yield identical materialized elements and lengths, yet do not
compare equal — `LazySequence` defines no `__eq__` (nor does the `Sequence` ABC),
so `==` is object identity, refuting element-wise equality. -/
theorem C2_eq_counterexample :
    pyEqLazySeq (PyLazyObj.mk 0 (LazySeq.ofSeq σ3 0 (some (fun x => x + x))))
        (PyLazyObj.mk 1 (LazySeq.ofLazy (LazySeq.ofSeq σ3 0 none) (some (fun x => 2 * x)))) = false
    ∧ (LazySeq.ofSeq σ3 0 (some (fun x => x + x))).matD σ3 0
        = (LazySeq.ofLazy (LazySeq.ofSeq σ3 0 none) (some (fun x => 2 * x))).matD σ3 0
    ∧ (LazySeq.ofSeq σ3 0 (some (fun x => x + x))).pyLen
        = (LazySeq.ofLazy (LazySeq.ofSeq σ3 0 none) (some (fun x => 2 * x))).pyLen :=
  ⟨rfl, rfl, rfl⟩

/-- C2 amended: `==` on `LazySequence` instances is object identity (`a is b`):
it holds iff the object ids coincide, it is reflexive, and — under a consistent
heap, where equal identity means equal object state — it implies element-wise
equality of the materializations.  The converse (same elements implies `==`)
fails, as the counterexample shows. -/
theorem C2_eq_is_identity {α : Type} (a b : PyLazyObj α) (σ : Store α) (d : α)
    (hheap : a.oid = b.oid → a.val = b.val) :
    (pyEqLazySeq a b = true ↔ a.oid = b.oid)
    ∧ (pyEqLazySeq a b = true → a.val.matD σ d = b.val.matD σ d)
    ∧ pyEqLazySeq a a = true := by
  refine ⟨?_, ?_, ?_⟩
  · simp [pyEqLazySeq, pyIs]
  · intro h
    have hid : a.oid = b.oid := by simpa [pyEqLazySeq, pyIs] using h
    rw [hheap hid]
  · simp [pyEqLazySeq, pyIs]

/-- Witness for C2's amended theorem at a concrete self-comparison. -/
theorem C2_eq_is_identity_witness :
    (pyEqLazySeq (PyLazyObj.mk 0 (LazySeq.ofSeq σ3 0 none)) (PyLazyObj.mk 0 (LazySeq.ofSeq σ3 0 none)) = true
      ↔ (PyLazyObj.mk 0 (LazySeq.ofSeq σ3 0 none)).oid = (PyLazyObj.mk 0 (LazySeq.ofSeq σ3 0 none)).oid)
    ∧ (pyEqLazySeq (PyLazyObj.mk 0 (LazySeq.ofSeq σ3 0 none)) (PyLazyObj.mk 0 (LazySeq.ofSeq σ3 0 none)) = true
        → (PyLazyObj.mk 0 (LazySeq.ofSeq σ3 0 none)).val.matD σ3 0
            = (PyLazyObj.mk 0 (LazySeq.ofSeq σ3 0 none)).val.matD σ3 0)
    ∧ pyEqLazySeq (PyLazyObj.mk 0 (LazySeq.ofSeq σ3 0 none)) (PyLazyObj.mk 0 (LazySeq.ofSeq σ3 0 none)) = true :=
  C2_eq_is_identity (PyLazyObj.mk 0 (LazySeq.ofSeq σ3 0 none))
    (PyLazyObj.mk 0 (LazySeq.ofSeq σ3 0 none)) σ3 0 (fun _ => rfl)

/-- C3: `set_cache_size` cannot rebuild the pin pool: the statement
`cls._ref_lru = deque(cls._weakref_lru, maxlen)` reads the class attribute
`_weakref_lru`, which is never defined anywhere (the pool is stored as
`_ref_lru`), so every call raises `AttributeError` — for the class attributes as
the class body defines them and for any pool contents whatsoever. -/
theorem C3_set_cache_size_attribute_bug {α : Type} (pool : PinPool α) (m : Nat) :
    set_cache_size [("_ref_lru", pool)] m
        = Except.error "AttributeError: type object LazySequence has no attribute _weakref_lru"
    ∧ set_cache_size (initClassAttrs α) m
        = Except.error "AttributeError: type object LazySequence has no attribute _weakref_lru" := by
  constructor <;> rfl

/-- C4 counterexample: integer access at index `-1` on a three-element sequence
does not raise — the underlying range lookup accepts negative indices counting
from the end and returns the last element — so "raises iff the index is outside
`[0, length)`" is false at `-1`. -/
theorem C4_negative_index_counterexample :
    isErrorB ((LazySeq.ofSeq σ3 0 none).getItemSt σ3 (fun _ => true)
        (PinPool.mk (some 10000) []) (-1)) = false
    ∧ exVal ((LazySeq.ofSeq σ3 0 none).getItemSt σ3 (fun _ => true)
        (PinPool.mk (some 10000) []) (-1)) = some 30
    ∧ ¬ (0 ≤ (-1 : Int) ∧ (-1 : Int) < ((LazySeq.ofSeq σ3 0 none).pyLen : Int)) :=
  ⟨rfl, rfl, by decide⟩

/-- C4 amended: for a well-formed sequence with a consistent cache, integer
access raises exactly when the index is outside `[-length, length)` — the error
of the underlying range lookup, which resolves negative indices from the end, is
propagated unchanged — and for an index in `[0, length)` it returns the pipeline
applied to the base element at the mapped index. -/
theorem C4_index_error_iff {α : Type} (σ : Store α) (wr : α → Bool)
    (pool : PinPool α) (L : LazySeq α) (i : Int) (d : α)
    (hWF : WF σ L) (hC : CacheOK σ L) :
    (isErrorB (L.getItemSt σ wr pool i) = true
        ↔ (i < -(L.pyLen : Int) ∨ (L.pyLen : Int) ≤ i))
    ∧ ((0 ≤ i ∧ i < (L.pyLen : Int)) →
        exVal (L.getItemSt σ wr pool i)
          = some (applyMaps L.map_funcs ((σ L.base_ref).getD (L.base_range.nthI i).toNat d))) := by
  rcases hc : cacheLookup L.cache i with _ | v
  · rcases hg : L.getItemInt σ i with e | v
    · have herr : isErrorB (L.getItemInt σ i) = true := by rw [hg]; rfl
      have hout := (getItemInt_error_iff σ L i hWF).mp herr
      constructor
      · simp only [LazySeq.getItemSt, hc, hg, isErrorB]
        simpa using hout
      · intro hin
        exact absurd hout (by omega)
    · have hok : ¬ (i < -(L.pyLen : Int) ∨ (L.pyLen : Int) ≤ i) := by
        intro hout
        have hbad := (getItemInt_error_iff σ L i hWF).mpr hout
        rw [hg] at hbad
        simp [isErrorB] at hbad
      constructor
      · simp only [LazySeq.getItemSt, hc, hg]
        by_cases hw : wr v
        · simp [hw, isErrorB, hok]
        · simp [hw, isErrorB, hok]
      · intro hin
        have hval := getItemInt_ok σ L i d hWF hin.1 hin.2
        rw [hg] at hval
        injection hval with hveq
        simp only [LazySeq.getItemSt, hc, hg]
        by_cases hw : wr v
        · simp only [hw, if_true, exVal]
          exact congrArg some hveq
        · simp only [hw, Bool.false_eq_true, if_false, exVal]
          exact congrArg some hveq
  · have hmem := cacheLookup_mem hc
    have hgv : L.getItemInt σ i = Except.ok v := hC (i, v) hmem
    have hok : ¬ (i < -(L.pyLen : Int) ∨ (L.pyLen : Int) ≤ i) := by
      intro hout
      have hbad := (getItemInt_error_iff σ L i hWF).mpr hout
      rw [hgv] at hbad
      simp [isErrorB] at hbad
    constructor
    · simp only [LazySeq.getItemSt, hc, isErrorB]
      exact ⟨fun h => absurd h (by simp), fun h => absurd h hok⟩
    · intro hin
      have hval := getItemInt_ok σ L i d hWF hin.1 hin.2
      rw [hgv] at hval
      injection hval with hveq
      simp only [LazySeq.getItemSt, hc, exVal]
      exact congrArg some hveq

/-- Witness for C4's amended theorem at a concrete in-range access. -/
theorem C4_index_error_iff_witness :
    ((isErrorB ((LazySeq.ofSeq σ3 0 none).getItemSt σ3 (fun _ => true)
          (PinPool.mk (some 10000) []) 1) = true
        ↔ ((1 : Int) < -(((LazySeq.ofSeq σ3 0 none).pyLen : Int))
            ∨ (((LazySeq.ofSeq σ3 0 none).pyLen : Int)) ≤ 1))
    ∧ ((0 ≤ (1 : Int) ∧ (1 : Int) < ((LazySeq.ofSeq σ3 0 none).pyLen : Int)) →
        exVal ((LazySeq.ofSeq σ3 0 none).getItemSt σ3 (fun _ => true)
            (PinPool.mk (some 10000) []) 1)
          = some (applyMaps (LazySeq.ofSeq σ3 0 none).map_funcs
              ((σ3 (LazySeq.ofSeq σ3 0 none).base_ref).getD
                ((LazySeq.ofSeq σ3 0 none).base_range.nthI 1).toNat 0)))) :=
  C4_index_error_iff σ3 (fun _ => true) (PinPool.mk (some 10000) [])
    (LazySeq.ofSeq σ3 0 none) 1 0 (by unfold WF; decide)
    (by intro p hp; simp [LazySeq.ofSeq] at hp)

/-- C5: slicing with a nonzero step succeeds and returns a new facade sharing
the base collection by reference (identical `base_ref`, the model of object
identity — no copy), carrying the same pipeline functions, with a fresh empty
per-instance cache; the only changed component is the index range, which is the
sliced range.  The slicing functions take no store argument at all, so no base
element is read and no value is recomputed. -/
theorem C5_slice_shares_base {α : Type} (L : LazySeq α) (s : PySlice)
    (h : s.step ≠ some 0) :
    L.sliceItemE s = Except.ok (L.sliceItem s)
    ∧ (L.sliceItem s).base_ref = L.base_ref
    ∧ (L.sliceItem s).map_funcs = L.map_funcs
    ∧ (L.sliceItem s).cache = []
    ∧ (L.sliceItem s).base_range = L.base_range.sliceRange s := by
  refine ⟨sliceItemE_ok L s h, rfl, ?_, rfl, rfl⟩
  simp [LazySeq.sliceItem, LazySeq.ofLazy]

/-- Witness for C5 at a concrete slice. -/
theorem C5_slice_shares_base_witness :
    (LazySeq.ofSeq σ3 0 none).sliceItemE (PySlice.mk (some (-100)) (some 100) (some (-2)))
        = Except.ok ((LazySeq.ofSeq σ3 0 none).sliceItem (PySlice.mk (some (-100)) (some 100) (some (-2))))
    ∧ ((LazySeq.ofSeq σ3 0 none).sliceItem (PySlice.mk (some (-100)) (some 100) (some (-2)))).base_ref
        = (LazySeq.ofSeq σ3 0 none).base_ref
    ∧ ((LazySeq.ofSeq σ3 0 none).sliceItem (PySlice.mk (some (-100)) (some 100) (some (-2)))).map_funcs
        = (LazySeq.ofSeq σ3 0 none).map_funcs
    ∧ ((LazySeq.ofSeq σ3 0 none).sliceItem (PySlice.mk (some (-100)) (some 100) (some (-2)))).cache = []
    ∧ ((LazySeq.ofSeq σ3 0 none).sliceItem (PySlice.mk (some (-100)) (some 100) (some (-2)))).base_range
        = (LazySeq.ofSeq σ3 0 none).base_range.sliceRange (PySlice.mk (some (-100)) (some 100) (some (-2))) :=
  C5_slice_shares_base (LazySeq.ofSeq σ3 0 none)
    (PySlice.mk (some (-100)) (some 100) (some (-2))) (by decide)

/-- C6 counterexample: the constructor only checks `isinstance(map_func,
Callable)`; a callable of arity 2 is not invocable with exactly one argument,
yet construction succeeds instead of raising. -/
theorem C6_arity_counterexample :
    isOkB (pyInit σ3 (SeqArg.seq 0) (MapFuncArg.callable 2 (fun x => x + 1))) = true
    ∧ (2 : Nat) ≠ 1 :=
  ⟨rfl, by decide⟩

/-- C6 amended: construction fails exactly when the supplied map function is a
non-callable object (arity is never checked, so wrong-arity callables are
accepted), or when the wrapped object is not an instance of the `Sequence` ABC
(so a duck-typed object with length and indexed read but no ABC registration is
also rejected); nothing else is rejected. -/
theorem C6_init_error_iff {α : Type} (σ : Store α) (sa : SeqArg α) (mf : MapFuncArg α) :
    isErrorB (pyInit σ sa mf) = (mf.failsCheck || !sa.isTrueSeq) := by
  rcases mf with _ | ⟨n, f⟩ | _ <;> rcases sa with L | r | r | _ <;> rfl

/-- C7: constructing from an existing sequence with map `g` yields the source
pipeline with `g` appended, built in a fresh list — the Python code writes only
to the new instance's freshly created `_map_funcs`, never to the source's, which
the pure embedding reflects — while sharing the base reference and range; the
materialization is `map g` of the source materialization. -/
theorem C7_extend_pipeline {α : Type} (σ : Store α) (src : LazySeq α) (g : α → α) (d : α) :
    (LazySeq.ofLazy src (some g)).map_funcs = src.map_funcs ++ [g]
    ∧ (LazySeq.ofLazy src (some g)).base_ref = src.base_ref
    ∧ (LazySeq.ofLazy src (some g)).base_range = src.base_range
    ∧ (LazySeq.ofLazy src (some g)).matD σ d = (src.matD σ d).map g :=
  ⟨rfl, rfl, rfl, matD_ofLazy_some σ src g d⟩

/-- C8: on a cache miss, integer access invokes the transformation pipeline
(`computed = true`) and, for a weak-referenceable value, stores it in the weak
cache and pins it in the pool; an immediately following access to the same index
— the entry still alive, which is what pinning guarantees, modelled by no
collection step running between the accesses — is served from the cache with the
same value, without invoking the pipeline again (`computed = false`): one
invocation total, not two. -/
theorem C8_second_access_cached {α : Type} (σ : Store α) (wr : α → Bool)
    (L : LazySeq α) (pool : PinPool α) (i : Int) (v : α)
    (hmiss : cacheLookup L.cache i = none)
    (hval : L.getItemInt σ i = Except.ok v)
    (hwr : wr v = true) :
    L.getItemSt σ wr pool i
        = Except.ok ⟨v, { L with cache := (i, v) :: L.cache }, pool.push v, true⟩
    ∧ ({ L with cache := (i, v) :: L.cache } : LazySeq α).getItemSt σ wr (pool.push v) i
        = Except.ok ⟨v, { L with cache := (i, v) :: L.cache }, pool.push v, false⟩ := by
  constructor
  · simp [LazySeq.getItemSt, hmiss, hval, hwr]
  · have hl : cacheLookup ((i, v) :: L.cache) i = some v := by simp [cacheLookup]
    simp [LazySeq.getItemSt, hl]

/-- Witness for C8 at a concrete counting scenario: base `[10, 20, 30]`,
transformation `x + 1`, index `0`, value `11`. -/
theorem C8_second_access_cached_witness :
    (LazySeq.ofSeq σ3 0 (some (fun x => x + 1))).getItemSt σ3 (fun _ => true)
        (PinPool.mk (some 10000) []) 0
      = Except.ok ⟨11, { LazySeq.ofSeq σ3 0 (some (fun x => x + 1)) with
          cache := (0, 11) :: (LazySeq.ofSeq σ3 0 (some (fun x => x + 1))).cache },
          (PinPool.mk (some 10000) []).push 11, true⟩
    ∧ ({ LazySeq.ofSeq σ3 0 (some (fun x => x + 1)) with
          cache := (0, 11) :: (LazySeq.ofSeq σ3 0 (some (fun x => x + 1))).cache } : LazySeq Nat).getItemSt
            σ3 (fun _ => true) ((PinPool.mk (some 10000) []).push 11) 0
      = Except.ok ⟨11, { LazySeq.ofSeq σ3 0 (some (fun x => x + 1)) with
          cache := (0, 11) :: (LazySeq.ofSeq σ3 0 (some (fun x => x + 1))).cache },
          (PinPool.mk (some 10000) []).push 11, false⟩ :=
  C8_second_access_cached σ3 (fun _ => true) (LazySeq.ofSeq σ3 0 (some (fun x => x + 1)))
    (PinPool.mk (some 10000) []) 0 11 rfl rfl rfl

/-- C9: slice access with any out-of-bounds or negative bounds and any nonzero
(possibly negative) step never raises: it returns a facade over a valid clamped
— possibly empty — range, every position of which still points inside the base
collection. -/
theorem C9_slice_never_raises {α : Type} (σ : Store α) (L : LazySeq α) (s : PySlice)
    (h1 : s.step ≠ some 0) (h2 : WF σ L) :
    L.sliceItemE s = Except.ok (L.sliceItem s) ∧ WF σ (L.sliceItem s) :=
  ⟨sliceItemE_ok L s h1, WF_sliceItem σ L s h2⟩

/-- Witness for C9 at a concrete wildly out-of-bounds negative-step slice. -/
theorem C9_slice_never_raises_witness :
    (LazySeq.ofSeq σ3 0 none).sliceItemE (PySlice.mk (some 50) (some (-50)) (some (-3)))
        = Except.ok ((LazySeq.ofSeq σ3 0 none).sliceItem (PySlice.mk (some 50) (some (-50)) (some (-3))))
    ∧ WF σ3 ((LazySeq.ofSeq σ3 0 none).sliceItem (PySlice.mk (some 50) (some (-50)) (some (-3)))) :=
  C9_slice_never_raises σ3 (LazySeq.ofSeq σ3 0 none)
    (PySlice.mk (some 50) (some (-50)) (some (-3))) (by decide) (by unfold WF; decide)

/-- C10: constructing with the default arguments — the base defaults to the
empty tuple (a reference to an empty stored sequence) and the map function to
`None` — succeeds and yields a valid empty sequence: length 0, pipeline exactly
`[id_func]`, and every integer access raises `IndexError`. -/
theorem C10_default_empty {α : Type} (σ : Store α) (r : Nat) (wr : α → Bool)
    (pool : PinPool α) (i : Int) (h : σ r = []) :
    pyInit σ (SeqArg.seq r) MapFuncArg.pyNone = Except.ok (LazySeq.ofSeq σ r none)
    ∧ (LazySeq.ofSeq σ r none).pyLen = 0
    ∧ (LazySeq.ofSeq σ r none).map_funcs = [id_func]
    ∧ isErrorB ((LazySeq.ofSeq σ r none).getItemSt σ wr pool i) = true := by
  have hlen : (LazySeq.ofSeq σ r none).pyLen = 0 := by
    simp [LazySeq.pyLen, LazySeq.ofSeq, h]
  refine ⟨rfl, hlen, rfl, ?_⟩
  have hwf := WF_ofSeq σ r (none : Option (α → α))
  have herr : isErrorB ((LazySeq.ofSeq σ r none).getItemInt σ i) = true := by
    rw [getItemInt_error_iff σ _ i hwf, hlen]
    omega
  rcases hg : (LazySeq.ofSeq σ r none).getItemInt σ i with e | v
  · have hcl : cacheLookup (LazySeq.ofSeq σ r none).cache i = none := rfl
    simp only [LazySeq.getItemSt, hcl, hg, isErrorB]
  · rw [hg] at herr
    simp [isErrorB] at herr

/-- Witness for C10 at the concrete empty store. -/
theorem C10_default_empty_witness :
    pyInit σempty (SeqArg.seq 0) MapFuncArg.pyNone = Except.ok (LazySeq.ofSeq σempty 0 none)
    ∧ (LazySeq.ofSeq σempty 0 none).pyLen = 0
    ∧ (LazySeq.ofSeq σempty 0 none).map_funcs = [id_func]
    ∧ isErrorB ((LazySeq.ofSeq σempty 0 none).getItemSt σempty (fun _ => true)
        (PinPool.mk (some 10000) []) 5) = true :=
  C10_default_empty σempty 0 (fun _ => true) (PinPool.mk (some 10000) []) 5 rfl
